import Mathlib

/-!
Verification of the central-limit terminal demo (src/main.rs).

The program keeps an `App` state (`b_count` trials per frame, walk length
`r_max`, and the current frame `data`), regenerates the frame on every tick
(`App::on_tick`), and runs a draw/poll/tick loop (`run_app`) driven from
`main`.  We embed the simulation engine as pure Lean functions over an
explicit stream of random draws, and the loop and `main` as functions over
environments recording the outcome of each effectful call.
-/

namespace CentralLimit

/-- The application state (`struct App` in src/main.rs).  The source stores
the bucket label as the decimal rendering `format!("{}", b)` of the integer
`b`; the rendering is injective, so we keep the integer itself. -/
structure App where
  b_count : Nat
  r_max : Int
  data : List (Int × Nat)
deriving Repr, DecidableEq

/-- `App::new`: defaults 5000 trials, walk length 19, empty frame. -/
def App.new : App := ⟨5000, 19, []⟩

/-- The Rust inclusive range `lo..=hi` over integers, as a list. -/
def intRange (lo hi : Int) : List Int :=
  (List.range (hi + 1 - lo).toNat).map (fun (i : Nat) => lo + (i : Int))

/-- The bucket labels built in `on_tick`: all `r` in
`-(r_max+2)..=(r_max+2)` with `r % 2 != 0`.  (Rust's truncated `%` and
Lean's `%` agree on whether `r % 2` is zero.) -/
def bucketLabels (r_max : Int) : List Int :=
  (intRange (-(r_max + 2)) (r_max + 2)).filter (fun r => r % 2 ≠ 0)

/-- The inner loop `for _ in 0..r_max` of one trial: `n` remaining steps,
next raw draw index `k`, accumulator `acc`.  Each step draws
`thread_rng().gen_range(0..10)` (the `k`-th raw draw reduced mod 10) and
subtracts 1 from the accumulator if it is `< 5`, else adds 1. -/
def walkSteps (draw : Nat → Nat) : Nat → Nat → Int → Int
  | 0, _, acc => acc
  | n + 1, k, acc =>
      walkSteps draw n (k + 1) (if draw k % 10 < 5 then acc - 1 else acc + 1)

/-- One trial endpoint: `r_max` steps starting from accumulator 0, consuming
raw draws `start, start+1, ...`.  (Rust's `0..r_max` over `i32` is empty for
non-positive `r_max`, hence `Int.toNat`.) -/
def walkSum (r_max : Int) (draw : Nat → Nat) (start : Nat) : Int :=
  walkSteps draw r_max.toNat start 0

/-- The `sums` vector: trial `b` consumes the `r_max` raw draws starting at
index `b * r_max`, matching the sequential consumption of `thread_rng()`. -/
def trialSums (b_count : Nat) (r_max : Int) (draw : Nat → Nat) : List Int :=
  (List.range b_count).map (fun b => walkSum r_max draw (b * r_max.toNat))

/-- `App::on_tick`: clear `data`, then for each bucket label `b` push
`(b, #{trials whose endpoint equals b})`.  `b_count` and `r_max` are left
unchanged (`self.data` is the only field written). -/
def App.on_tick (a : App) (draw : Nat → Nat) : App :=
  let sums := trialSums a.b_count a.r_max draw
  ⟨a.b_count, a.r_max,
    (bucketLabels a.r_max).map (fun b => (b, (sums.filter (fun s => s = b)).length))⟩

/-! ### Basic lemmas about the bucket labels -/

lemma mem_intRange {lo hi x : Int} : x ∈ intRange lo hi ↔ lo ≤ x ∧ x ≤ hi := by
  constructor
  · intro h
    obtain ⟨i, hmem, hx⟩ := List.mem_map.mp h
    have hi' := List.mem_range.mp hmem
    omega
  · intro h
    exact List.mem_map.mpr ⟨(x - lo).toNat, List.mem_range.mpr (by omega), by omega⟩

lemma intRange_pairwise (lo hi : Int) : (intRange lo hi).Pairwise (· < ·) := by
  have key : ∀ a b : Nat, a < b → lo + (a : Int) < lo + (b : Int) := by
    intro a b h
    omega
  exact List.Pairwise.map (fun (i : Nat) => lo + (i : Int)) key (List.pairwise_lt_range _)

lemma bucketLabels_pairwise (w : Int) : (bucketLabels w).Pairwise (· < ·) :=
  List.Pairwise.filter _ (intRange_pairwise _ _)

lemma bucketLabels_nodup (w : Int) : (bucketLabels w).Nodup :=
  (bucketLabels_pairwise w).imp (fun h => ne_of_lt h)

lemma mem_bucketLabels {w x : Int} :
    x ∈ bucketLabels w ↔ (-(w + 2) ≤ x ∧ x ≤ w + 2 ∧ x % 2 ≠ 0) := by
  simp [bucketLabels, List.mem_filter, mem_intRange, and_assoc]

/-! ### Bounds and parity of one trial endpoint -/

lemma walkSteps_le (draw : Nat → Nat) :
    ∀ (n k : Nat) (acc : Int),
      acc - n ≤ walkSteps draw n k acc ∧ walkSteps draw n k acc ≤ acc + n := by
  intro n
  induction n with
  | zero => intro k acc; simp [walkSteps]
  | succ m ih =>
    intro k acc
    simp only [walkSteps]
    split
    · have := ih (k + 1) (acc - 1)
      omega
    · have := ih (k + 1) (acc + 1)
      omega

lemma walkSteps_emod_two (draw : Nat → Nat) :
    ∀ (n k : Nat) (acc : Int), walkSteps draw n k acc % 2 = (acc + n) % 2 := by
  intro n
  induction n with
  | zero => intro k acc; simp [walkSteps]
  | succ m ih =>
    intro k acc
    simp only [walkSteps]
    split
    · have := ih (k + 1) (acc - 1)
      omega
    · have := ih (k + 1) (acc + 1)
      omega

lemma walkSum_mem_bucketLabels {w : Int} (draw : Nat → Nat) (start : Nat)
    (hpos : 0 < w) (hodd : w % 2 = 1) :
    walkSum w draw start ∈ bucketLabels w := by
  have hb := walkSteps_le draw w.toNat start 0
  have hp := walkSteps_emod_two draw w.toNat start 0
  rw [mem_bucketLabels]
  unfold walkSum
  omega

/-! ### Counting: distinct labels partition the trial endpoints -/

lemma length_filter_or_disjoint (p q : Int → Bool)
    (h : ∀ x, ¬(p x = true ∧ q x = true)) (ss : List Int) :
    (ss.filter (fun x => p x || q x)).length =
      (ss.filter p).length + (ss.filter q).length := by
  induction ss with
  | nil => simp
  | cons a t ih =>
    cases hpa : p a
    · cases hqa : q a <;> simp [List.filter_cons, hpa, hqa, ih] <;> omega
    · cases hqa : q a
      · simp [List.filter_cons, hpa, hqa, ih]
        omega
      · exact absurd ⟨hpa, hqa⟩ (h a)

lemma filter_mem_cons_eq (s : Int) (bs : List Int) (ss : List Int) :
    ss.filter (fun x => x ∈ s :: bs) =
      ss.filter (fun x => (x = s || x ∈ bs)) := by
  apply List.filter_congr
  intro x _
  by_cases h1 : x = s <;> by_cases h2 : x ∈ bs <;> simp [List.mem_cons, h1, h2]

lemma sum_counts (bs : List Int) (hnd : bs.Nodup) (ss : List Int) :
    ((bs.map (fun b => (ss.filter (fun s => s = b)).length)).sum)
      = (ss.filter (fun s => s ∈ bs)).length := by
  induction bs with
  | nil => simp
  | cons b bs ih =>
    rw [List.nodup_cons] at hnd
    have hdisj : ∀ x : Int, ¬((decide (x = b)) = true ∧ (decide (x ∈ bs)) = true) := by
      intro x hx
      rcases hx with ⟨hx1, hx2⟩
      simp only [decide_eq_true_eq] at hx1 hx2
      exact hnd.1 (hx1 ▸ hx2)
    simp only [List.map_cons, List.sum_cons]
    rw [ih hnd.2, filter_mem_cons_eq b bs ss]
    exact (length_filter_or_disjoint (fun x => decide (x = b))
      (fun x => decide (x ∈ bs)) hdisj ss).symm

/-! ### Shape of the regenerated frame -/

lemma on_tick_data (a : App) (draw : Nat → Nat) :
    (App.on_tick a draw).data =
      (bucketLabels a.r_max).map
        (fun b => (b, ((trialSums a.b_count a.r_max draw).filter (fun s => s = b)).length)) :=
  rfl

lemma on_tick_labels (a : App) (draw : Nat → Nat) :
    (App.on_tick a draw).data.map Prod.fst = bucketLabels a.r_max := by
  rw [on_tick_data, List.map_map]
  exact List.map_id _

lemma trialSums_length (b_count : Nat) (r_max : Int) (draw : Nat → Nat) :
    (trialSums b_count r_max draw).length = b_count := by
  simp [trialSums]

lemma walkSum_le (w : Int) (draw : Nat → Nat) (start : Nat) :
    -(w.toNat : Int) ≤ walkSum w draw start ∧ walkSum w draw start ≤ (w.toNat : Int) := by
  have h := walkSteps_le draw w.toNat start 0
  unfold walkSum
  omega

lemma walkSum_emod_two (w : Int) (draw : Nat → Nat) (start : Nat) :
    walkSum w draw start % 2 = (w.toNat : Int) % 2 := by
  have h := walkSteps_emod_two draw w.toNat start 0
  unfold walkSum
  omega

lemma mem_trialSums {bc : Nat} {w : Int} {draw : Nat → Nat} {s : Int}
    (hs : s ∈ trialSums bc w draw) :
    ∃ i, i < bc ∧ s = walkSum w draw (i * w.toNat) := by
  obtain ⟨i, hi, hw⟩ := List.mem_map.mp hs
  exact ⟨i, List.mem_range.mp hi, hw.symm⟩

/-! ### Claim theorems about the simulation engine -/

/-- C1: for every config with odd `walk_length > 0` and `sample_count > 0`,
the bucket counts of the frame produced by one regeneration (`on_tick`) sum
exactly to `sample_count`: every trial endpoint is odd and lies in
`[-walk_length, walk_length]`, hence matches exactly one bucket label. -/
theorem C1_counts_sum_to_sample_count (a : App) (draw : Nat → Nat)
    (hodd : a.r_max % 2 = 1) (hpos : 0 < a.r_max) (hb : 0 < a.b_count) :
    ((App.on_tick a draw).data.map Prod.snd).sum = a.b_count := by
  rw [on_tick_data, List.map_map]
  have hcomp : (Prod.snd ∘ fun b : Int =>
      (b, ((trialSums a.b_count a.r_max draw).filter (fun s => s = b)).length)) =
      fun b : Int =>
        ((trialSums a.b_count a.r_max draw).filter (fun s => s = b)).length := rfl
  rw [hcomp, sum_counts _ (bucketLabels_nodup _) _]
  have hall : ∀ s ∈ trialSums a.b_count a.r_max draw,
      decide (s ∈ bucketLabels a.r_max) = true := by
    intro s hs
    simp only [decide_eq_true_eq]
    obtain ⟨i, hi, rfl⟩ := mem_trialSums hs
    exact walkSum_mem_bucketLabels draw _ hpos hodd
  rw [List.filter_eq_self.mpr hall, trialSums_length]

/-- C1 witness: one trial of walk length 1 with a constant draw stream. -/
theorem C1_counts_sum_to_sample_count_witness :
    ((1 : Int) % 2 = 1) ∧ ((0 : Int) < 1) ∧ (0 < 1) ∧
    ((App.on_tick ⟨1, 1, []⟩ (fun _ => 0)).data.map Prod.snd).sum = 1 :=
  ⟨by decide, by decide, by decide,
    C1_counts_sum_to_sample_count ⟨1, 1, []⟩ (fun _ => 0) (by decide) (by decide) (by decide)⟩

/-- C2: the bucket-label sequence of a generated frame is strictly
ascending, its members are exactly the odd integers of
`[-(walk_length + 2), walk_length + 2]`, and it does not depend on the
sample count or on the random draws. -/
theorem C2_labels_fixed_padded_odd_ascending (a a' : App) (d d' : Nat → Nat)
    (h : a.r_max = a'.r_max) :
    ((App.on_tick a d).data.map Prod.fst).Pairwise (· < ·) ∧
    (∀ x : Int, x ∈ (App.on_tick a d).data.map Prod.fst ↔
      (-(a.r_max + 2) ≤ x ∧ x ≤ a.r_max + 2 ∧ x % 2 ≠ 0)) ∧
    (App.on_tick a d).data.map Prod.fst = (App.on_tick a' d').data.map Prod.fst := by
  rw [on_tick_labels, on_tick_labels, h]
  exact ⟨bucketLabels_pairwise _, fun x => mem_bucketLabels, rfl⟩

/-- C2 witness: two configs with walk length 3 but different sample counts
and different draw streams produce the same label sequence. -/
theorem C2_labels_fixed_padded_odd_ascending_witness :
    ((3 : Int) = 3) ∧
    (App.on_tick ⟨1, 3, []⟩ (fun _ => 0)).data.map Prod.fst =
      (App.on_tick ⟨2, 3, []⟩ (fun _ => 9)).data.map Prod.fst :=
  ⟨rfl, (C2_labels_fixed_padded_odd_ascending ⟨1, 3, []⟩ ⟨2, 3, []⟩
    (fun _ => 0) (fun _ => 9) rfl).2.2⟩

/-- C3: in every generated frame each bucket count is at most the sample
count (counts are naturals, so they lie in `[0, sample_count]`), and every
label outside `[-walk_length, walk_length]` has count 0, for every random
outcome. -/
theorem C3_counts_bounded_padding_zero (a : App) (draw : Nat → Nat)
    (hw : 0 ≤ a.r_max) :
    (∀ p ∈ (App.on_tick a draw).data, p.2 ≤ a.b_count) ∧
    (∀ p ∈ (App.on_tick a draw).data,
      (p.1 < -a.r_max ∨ a.r_max < p.1) → p.2 = 0) := by
  constructor
  · intro p hp
    rw [on_tick_data] at hp
    obtain ⟨b, hb, rfl⟩ := List.mem_map.mp hp
    show ((trialSums a.b_count a.r_max draw).filter (fun s => s = b)).length ≤ a.b_count
    exact le_trans (List.length_filter_le _ _) (le_of_eq (trialSums_length _ _ _))
  · intro p hp hout
    rw [on_tick_data] at hp
    obtain ⟨b, hb, rfl⟩ := List.mem_map.mp hp
    have hout' : b < -a.r_max ∨ a.r_max < b := hout
    show ((trialSums a.b_count a.r_max draw).filter (fun s => s = b)).length = 0
    rw [List.length_eq_zero, List.filter_eq_nil_iff]
    intro s hs
    simp only [decide_eq_true_eq]
    obtain ⟨i, hi, rfl⟩ := mem_trialSums hs
    have hbnd := walkSum_le a.r_max draw (i * a.r_max.toNat)
    omega

/-- C3 witness: with walk length 1 and one trial, the padding label 3 of the
frame carries count 0, and that count is at most the sample count. -/
theorem C3_counts_bounded_padding_zero_witness :
    ((0 : Int) ≤ 1) ∧
    (((3 : Int), (0 : Nat)) ∈ (App.on_tick ⟨1, 1, []⟩ (fun _ => 0)).data) ∧
    (((3 : Int), (0 : Nat)).2 = 0) :=
  ⟨by decide, by decide,
    (C3_counts_bounded_padding_zero ⟨1, 1, []⟩ (fun _ => 0) (by decide)).2
      (3, 0) (by decide) (by decide)⟩

lemma walkSteps_congr (d d' : Nat → Nat) :
    ∀ (n k : Nat) (acc : Int), (∀ j, k ≤ j → j < k + n → d j = d' j) →
      walkSteps d n k acc = walkSteps d' n k acc := by
  intro n
  induction n with
  | zero => intro k acc h; rfl
  | succ m ih =>
    intro k acc h
    simp only [walkSteps]
    rw [h k (le_refl k) (by omega)]
    exact ih (k + 1) _ (fun j h1 h2 => h j (by omega) (by omega))

lemma trialSums_congr (bc : Nat) (w : Int) (d d' : Nat → Nat)
    (h : ∀ k, k < bc * w.toNat → d k = d' k) :
    trialSums bc w d = trialSums bc w d' := by
  unfold trialSums
  apply List.map_congr_left
  intro b hb
  have hb' : b + 1 ≤ bc := List.mem_range.mp hb
  unfold walkSum
  apply walkSteps_congr
  intro j hj1 hj2
  apply h
  have h1 : b * w.toNat + w.toNat = (b + 1) * w.toNat := by ring
  have h2 : (b + 1) * w.toNat ≤ bc * w.toNat := Nat.mul_le_mul_right _ hb'
  omega

/-- C5: the engine, given an injected draw stream, is a deterministic
function of the config and the draws: it reads only the first
`sample_count * walk_length` draws, and two runs over agreeing draw streams
produce identical frames.  (The source calls the ambient `thread_rng()`;
the injected stream `draw` models the spec's seedable source, with the
`k`-th call to `gen_range(0..10)` reading `draw k`.) -/
theorem C5_deterministic_given_draws (a : App) (d d' : Nat → Nat)
    (h : ∀ k, k < a.b_count * a.r_max.toNat → d k = d' k) :
    App.on_tick a d = App.on_tick a d' := by
  have hts := trialSums_congr a.b_count a.r_max d d' h
  unfold App.on_tick
  rw [hts]

/-- C5 witness: two draw streams that agree on the single consumed index
yield identical frames, though they differ beyond it. -/
theorem C5_deterministic_given_draws_witness :
    App.on_tick ⟨1, 1, []⟩ (fun _ => 0) =
      App.on_tick ⟨1, 1, []⟩ (fun k => if k < 1 then 0 else 9) :=
  C5_deterministic_given_draws ⟨1, 1, []⟩ (fun _ => 0)
    (fun k => if k < 1 then 0 else 9) (by decide)

/-- C6: regeneration is total also for an even walk length: the frame still
carries the full odd-label sequence, and every trial endpoint is even, so
every bucket count is 0. -/
theorem C6_even_walk_all_counts_zero (a : App) (draw : Nat → Nat)
    (hpos : 0 < a.r_max) (heven : a.r_max % 2 = 0) (hb : 0 < a.b_count) :
    (∀ x : Int, x ∈ (App.on_tick a draw).data.map Prod.fst ↔
      (-(a.r_max + 2) ≤ x ∧ x ≤ a.r_max + 2 ∧ x % 2 ≠ 0)) ∧
    (∀ p ∈ (App.on_tick a draw).data, p.2 = 0) := by
  constructor
  · rw [on_tick_labels]
    exact fun x => mem_bucketLabels
  · intro p hp
    rw [on_tick_data] at hp
    obtain ⟨b, hbm, rfl⟩ := List.mem_map.mp hp
    have hbodd := mem_bucketLabels.mp hbm
    show ((trialSums a.b_count a.r_max draw).filter (fun s => s = b)).length = 0
    rw [List.length_eq_zero, List.filter_eq_nil_iff]
    intro s hs
    simp only [decide_eq_true_eq]
    obtain ⟨i, hi, rfl⟩ := mem_trialSums hs
    have hpar := walkSum_emod_two a.r_max draw (i * a.r_max.toNat)
    intro heq
    omega

/-- C6 witness: walk length 2 with one trial; the bucket labeled 1 is
present and its count is 0. -/
theorem C6_even_walk_all_counts_zero_witness :
    ((0 : Int) < 2) ∧ ((2 : Int) % 2 = 0) ∧
    (((1 : Int), (0 : Nat)) ∈ (App.on_tick ⟨1, 2, []⟩ (fun _ => 0)).data) ∧
    (((1 : Int), (0 : Nat)).2 = 0) :=
  ⟨by decide, by decide, by decide,
    (C6_even_walk_all_counts_zero ⟨1, 2, []⟩ (fun _ => 0) (by decide) (by decide)
      (by decide)).2 (1, 0) (by decide)⟩

/-- C9: a regeneration fully replaces the frame: the new bucket data depends
only on `b_count`, `r_max` and the fresh draws, never on the previous
frame's contents, and it leaves `b_count` and `r_max` unchanged. -/
theorem C9_frame_fully_replaced (a a' : App) (d : Nat → Nat)
    (hb : a.b_count = a'.b_count) (hr : a.r_max = a'.r_max) :
    (App.on_tick a d).b_count = a.b_count ∧
    (App.on_tick a d).r_max = a.r_max ∧
    (App.on_tick a d).data = (App.on_tick a' d).data := by
  refine ⟨rfl, rfl, ?_⟩
  rw [on_tick_data, on_tick_data, hb, hr]

/-- C9 witness: starting from an empty frame or from a junk frame, the same
config and draws regenerate the same bucket data. -/
theorem C9_frame_fully_replaced_witness :
    (1 = 1) ∧ ((1 : Int) = 1) ∧
    (App.on_tick ⟨1, 1, []⟩ (fun _ => 0)).data =
      (App.on_tick ⟨1, 1, [(5, 5)]⟩ (fun _ => 0)).data :=
  ⟨rfl, rfl,
    (C9_frame_fully_replaced ⟨1, 1, []⟩ ⟨1, 1, [(5, 5)]⟩ (fun _ => 0) rfl rfl).2.2⟩

/-! ### The tick loop `run_app` and the driver `main` -/

/-- Key codes: crossterm's `KeyCode`, reduced to the character case the loop
inspects plus a catch-all for every other code. -/
inductive KeyCode where
  | char (c : Char)
  | other
deriving Repr, DecidableEq

/-- Input events: crossterm's `Event`, reduced to key events (whose code the
loop inspects) plus a catch-all for the other event kinds, which the loop
ignores. -/
inductive Ev where
  | key (code : KeyCode)
  | other
deriving Repr, DecidableEq

/-- Environment of one run of `run_app`: for iteration `k`, the outcome of
`terminal.draw` (`drawRes k`), of `event::poll` (`pollRes k`, `true` when an
event is ready within the timeout), of `event::read` (`readRes k`), and
whether `last_tick.elapsed() >= tick_rate` held at the tick check
(`tickElapsed k`); `draws n` is the raw draw stream consumed by the `n`-th
regeneration. -/
structure LoopEnv (E : Type) where
  drawRes : Nat → Except E Unit
  pollRes : Nat → Except E Bool
  readRes : Nat → Except E Ev
  tickElapsed : Nat → Bool
  draws : Nat → Nat → Nat

/-- Loop state: the mutable `app`, plus two observers of the run — `ticks`,
the number of `on_tick` calls performed so far, and `drawn`, the frames
handed to `terminal.draw` (ghost data recording the draw calls; the Rust
loop state is just `app` and `last_tick`). -/
structure LoopState where
  app : App
  ticks : Nat
  drawn : List (List (Int × Nat))
deriving Repr, DecidableEq

/-- Result of running the loop for at most `fuel` iterations: returned
cleanly, aborted with a propagated error, or still looping. -/
inductive LoopResult (E : Type) where
  | ok (s : LoopState)
  | err (e : E) (s : LoopState)
  | running (s : LoopState)

/-- State carried by a loop result. -/
def LoopResult.state {E : Type} : LoopResult E → LoopState
  | .ok s => s
  | .err _ s => s
  | .running s => s

/-- The regeneration step of an iteration: `app.on_tick()` on the draws of
regeneration number `ticks`, then `last_tick = Instant::now()` (kept
implicit: the next iteration's `tickElapsed` reflects the reset clock). -/
def tickStep {E : Type} (env : LoopEnv E) (s : LoopState) : LoopState :=
  ⟨App.on_tick s.app (env.draws s.ticks), s.ticks + 1, s.drawn⟩

/-- The loop of `run_app` (src/main.rs): each iteration draws the current
frame (`?` propagates a failure), polls for an event within the remaining
tick budget (`?` propagates), on a ready event reads it (`?` propagates) and
returns `Ok` if it is the `q` key press, and otherwise — also on timeout or
a non-quit event — regenerates the frame when the tick interval has elapsed,
then loops.  `fuel` bounds the number of iterations modelled (the Rust loop
is unbounded); `k` is the iteration index. -/
def runApp {E : Type} (env : LoopEnv E) : Nat → Nat → LoopState → LoopResult E
  | 0, _, s => .running s
  | fuel + 1, k, s =>
    let s1 : LoopState := ⟨s.app, s.ticks, s.drawn ++ [s.app.data]⟩
    match env.drawRes k with
    | .error e => .err e s1
    | .ok _ =>
      match env.pollRes k with
      | .error e => .err e s1
      | .ok true =>
        match env.readRes k with
        | .error e => .err e s1
        | .ok (Ev.key (KeyCode.char c)) =>
          if c = 'q' then .ok s1
          else if env.tickElapsed k then runApp env fuel (k + 1) (tickStep env s1)
          else runApp env fuel (k + 1) s1
        | .ok _ =>
          if env.tickElapsed k then runApp env fuel (k + 1) (tickStep env s1)
          else runApp env fuel (k + 1) s1
      | .ok false =>
        if env.tickElapsed k then runApp env fuel (k + 1) (tickStep env s1)
        else runApp env fuel (k + 1) s1

/-- Environment of `main`: the outcome of each effectful call, in program
order: `enable_raw_mode()`, the setup `execute!`, `Terminal::new`, the
`run_app` call, `disable_raw_mode()`, the teardown `execute!`, and
`show_cursor()`. -/
structure MainEnv (E : Type) where
  enableRaw : Except E Unit
  execSetup : Except E Unit
  newTerminal : Except E Unit
  runRes : Except E Unit
  disableRaw : Except E Unit
  execTeardown : Except E Unit
  showCursor : Except E Unit

/-- `main` (src/main.rs): setup and teardown calls use `?`, so their errors
propagate out of `main`; the result of `run_app` is captured in `res`
without `?`, and after teardown `main` prints `res`'s error, if any, and
returns `Ok(())`.  The value is the list of diagnostics printed by that
final `if let Err` paired with `main`'s own result. -/
def mainRun {E : Type} (env : MainEnv E) : List E × Except E Unit :=
  match env.enableRaw with
  | .error e => ([], .error e)
  | .ok _ =>
  match env.execSetup with
  | .error e => ([], .error e)
  | .ok _ =>
  match env.newTerminal with
  | .error e => ([], .error e)
  | .ok _ =>
  match env.disableRaw with
  | .error e => ([], .error e)
  | .ok _ =>
  match env.execTeardown with
  | .error e => ([], .error e)
  | .ok _ =>
  match env.showCursor with
  | .error e => ([], .error e)
  | .ok _ =>
  match env.runRes with
  | .error e => ([e], .ok ())
  | .ok _ => ([], .ok ())

/-- Process exit code of a Rust `main` returning `Result`: 0 on `Ok`, 1 on
`Err`. -/
def exitCode {E : Type} (r : Except E Unit) : Nat :=
  match r with
  | .ok _ => 0
  | .error _ => 1

/-! ### Claim theorems about the loop and the driver -/

/-- C4 counterexample: a run where setup and teardown succeed but `run_app`
fails with error 7.  `main` prints the diagnostic yet returns `Ok(())`, so
the process exits with code 0 — contradicting the claim that any failure
propagated out of the run loop exits non-zero and that exit code 0 occurs
only on a clean quit. -/
theorem C4_counterexample_loop_error_exits_zero :
    ((⟨.ok (), .ok (), .ok (), .error 7, .ok (), .ok (), .ok ()⟩ : MainEnv Nat).runRes
      = .error 7) ∧
    mainRun (⟨.ok (), .ok (), .ok (), .error 7, .ok (), .ok (), .ok ()⟩ : MainEnv Nat)
      = ([7], .ok ()) ∧
    exitCode (mainRun
      (⟨.ok (), .ok (), .ok (), .error 7, .ok (), .ok (), .ok ()⟩ : MainEnv Nat)).2 = 0 :=
  ⟨rfl, rfl, rfl⟩

/-- C4 amended: when the terminal setup and teardown calls all succeed,
`main` exits with code 0 both on a clean quit and on a failure propagated
out of the run loop; in the latter case the diagnostic is printed but the
error is not turned into a non-zero exit.
-/
theorem C4_loop_error_printed_exit_zero {E : Type} (env : MainEnv E)
    (h1 : env.enableRaw = .ok ()) (h2 : env.execSetup = .ok ())
    (h3 : env.newTerminal = .ok ()) (h4 : env.disableRaw = .ok ())
    (h5 : env.execTeardown = .ok ()) (h6 : env.showCursor = .ok ()) :
    mainRun env = ((match env.runRes with | .ok _ => [] | .error e => [e]), .ok ()) ∧
    exitCode (mainRun env).2 = 0 := by
  have hm : mainRun env =
      ((match env.runRes with | .ok _ => [] | .error e => [e]), Except.ok ()) := by
    unfold mainRun
    rw [h1, h2, h3, h4, h5, h6]
    cases env.runRes <;> rfl
  refine ⟨hm, ?_⟩
  rw [hm]
  rfl

/-- C4 witness: a concrete environment in which every setup and teardown
call succeeds and the run loop fails with error 3: the diagnostic is
printed and the exit code is 0. -/
theorem C4_loop_error_printed_exit_zero_witness :
    mainRun (⟨.ok (), .ok (), .ok (), .error 3, .ok (), .ok (), .ok ()⟩ : MainEnv Nat)
      = ([3], .ok ()) ∧
    exitCode (mainRun
      (⟨.ok (), .ok (), .ok (), .error 3, .ok (), .ok (), .ok ()⟩ : MainEnv Nat)).2 = 0 :=
  C4_loop_error_printed_exit_zero
    (⟨.ok (), .ok (), .ok (), .error 3, .ok (), .ok (), .ok ()⟩ : MainEnv Nat)
    rfl rfl rfl rfl rfl rfl

/-- C7: in any iteration whose draw succeeds and whose poll reports a ready
event that reads as the `q` key press, the loop returns success at once —
the app and the regeneration count are unchanged (quit takes priority over
a pending tick, whatever `tickElapsed` says), and exactly this iteration's
draw is appended to the ghost draw trace. -/
theorem C7_quit_priority_over_tick {E : Type} (env : LoopEnv E) (k fuel : Nat)
    (s : LoopState)
    (hd : env.drawRes k = .ok ()) (hp : env.pollRes k = .ok true)
    (hr : env.readRes k = .ok (Ev.key (KeyCode.char 'q'))) :
    runApp env (fuel + 1) k s = .ok ⟨s.app, s.ticks, s.drawn ++ [s.app.data]⟩ := by
  simp only [runApp, hd, hp, hr]
  rfl

/-- C7 witness: an input source that yields the quit event on the very
first poll while a tick is simultaneously ready; the loop returns success
with zero regenerations after the single initial draw. -/
theorem C7_quit_priority_over_tick_witness :
    runApp (⟨fun _ => .ok (), fun _ => .ok true,
        fun _ => .ok (Ev.key (KeyCode.char 'q')), fun _ => true,
        fun _ _ => 0⟩ : LoopEnv Nat) 1 0 ⟨App.new, 0, []⟩
      = .ok ⟨App.new, 0, [[]]⟩ :=
  C7_quit_priority_over_tick
    (⟨fun _ => .ok (), fun _ => .ok true,
        fun _ => .ok (Ev.key (KeyCode.char 'q')), fun _ => true,
        fun _ _ => 0⟩ : LoopEnv Nat) 0 0 ⟨App.new, 0, []⟩ rfl rfl rfl

/-- C8: the first failing effect of an iteration — the display surface's
draw, the input source's poll, or its read — aborts the loop immediately:
no retry, no further iteration, no regeneration, and exactly that error is
returned to the caller. -/
theorem C8_effect_error_aborts_loop {E : Type} (env : LoopEnv E) (k fuel : Nat)
    (s : LoopState) (e : E)
    (h : env.drawRes k = .error e ∨
         (env.drawRes k = .ok () ∧ env.pollRes k = .error e) ∨
         (env.drawRes k = .ok () ∧ env.pollRes k = .ok true ∧
           env.readRes k = .error e)) :
    runApp env (fuel + 1) k s = .err e ⟨s.app, s.ticks, s.drawn ++ [s.app.data]⟩ := by
  rcases h with h1 | ⟨h1, h2⟩ | ⟨h1, h2, h3⟩
  · simp only [runApp, h1]
  · simp only [runApp, h1, h2]
  · simp only [runApp, h1, h2, h3]

/-- C8 witness: a draw failure with error 5 on the first iteration aborts
the loop at once with that error. -/
theorem C8_effect_error_aborts_loop_witness :
    runApp (⟨fun _ => .error 5, fun _ => .ok false, fun _ => .ok Ev.other,
        fun _ => false, fun _ _ => 0⟩ : LoopEnv Nat) 1 0 ⟨App.new, 0, []⟩
      = .err 5 ⟨App.new, 0, [[]]⟩ :=
  C8_effect_error_aborts_loop
    (⟨fun _ => .error 5, fun _ => .ok false, fun _ => .ok Ev.other,
        fun _ => false, fun _ _ => 0⟩ : LoopEnv Nat) 0 0 ⟨App.new, 0, []⟩ 5
    (Or.inl rfl)

lemma runApp_drawn_extends {E : Type} (env : LoopEnv E) :
    ∀ (fuel k : Nat) (s : LoopState),
      ∃ t, (runApp env fuel k s).state.drawn = s.drawn ++ t := by
  intro fuel
  induction fuel with
  | zero =>
    intro k s
    exact ⟨[], by simp [runApp, LoopResult.state]⟩
  | succ m ih =>
    intro k s
    simp only [runApp]
    cases env.drawRes k with
    | error e => exact ⟨[s.app.data], rfl⟩
    | ok u =>
      have step : ∀ s' : LoopState, s'.drawn = s.drawn ++ [s.app.data] →
          ∃ t, (if env.tickElapsed k then runApp env m (k + 1) (tickStep env s')
            else runApp env m (k + 1) s').state.drawn = s.drawn ++ t := by
        intro s' hs'
        cases env.tickElapsed k with
        | true =>
          obtain ⟨t', ht'⟩ := ih (k + 1) (tickStep env s')
          refine ⟨[s.app.data] ++ t', ?_⟩
          rw [if_pos rfl, ht']
          show (tickStep env s').drawn ++ t' = _
          rw [tickStep]
          show s'.drawn ++ t' = _
          rw [hs', List.append_assoc]
        | false =>
          obtain ⟨t', ht'⟩ := ih (k + 1) s'
          refine ⟨[s.app.data] ++ t', ?_⟩
          rw [if_neg (by simp), ht', hs', List.append_assoc]
      cases env.pollRes k with
      | error e => exact ⟨[s.app.data], rfl⟩
      | ok b =>
        cases b with
        | false => exact step _ rfl
        | true =>
          cases hr : env.readRes k with
          | error e => exact ⟨[s.app.data], rfl⟩
          | ok ev =>
            match ev with
            | Ev.key (KeyCode.char c) =>
              by_cases hc : c = 'q'
              · exact ⟨[s.app.data], by simp [hc, LoopResult.state]⟩
              · simpa only [hc, if_false] using step _ rfl
            | Ev.key KeyCode.other => exact step _ rfl
            | Ev.other => exact step _ rfl

lemma runApp_drawn_head {E : Type} (env : LoopEnv E) (fuel k : Nat) (s : LoopState)
    (h : 0 < fuel) :
    ∃ t, (runApp env fuel k s).state.drawn = s.drawn ++ [s.app.data] ++ t := by
  obtain ⟨m, rfl⟩ : ∃ m, fuel = m + 1 := ⟨fuel - 1, by omega⟩
  simp only [runApp]
  cases env.drawRes k with
  | error e => exact ⟨[], by simp [LoopResult.state]⟩
  | ok u =>
    have step : ∀ s' : LoopState, s'.drawn = s.drawn ++ [s.app.data] →
        ∃ t, (if env.tickElapsed k then runApp env m (k + 1) (tickStep env s')
          else runApp env m (k + 1) s').state.drawn = s.drawn ++ [s.app.data] ++ t := by
      intro s' hs'
      cases env.tickElapsed k with
      | true =>
        obtain ⟨t', ht'⟩ := runApp_drawn_extends env m (k + 1) (tickStep env s')
        refine ⟨t', ?_⟩
        rw [if_pos rfl, ht']
        show (tickStep env s').drawn ++ t' = _
        rw [tickStep]
        show s'.drawn ++ t' = _
        rw [hs']
      | false =>
        obtain ⟨t', ht'⟩ := runApp_drawn_extends env m (k + 1) s'
        refine ⟨t', ?_⟩
        rw [if_neg (by simp), ht', hs']
    cases env.pollRes k with
    | error e => exact ⟨[], by simp [LoopResult.state]⟩
    | ok b =>
      cases b with
      | false => exact step _ rfl
      | true =>
        cases hr : env.readRes k with
        | error e => exact ⟨[], by simp [LoopResult.state]⟩
        | ok ev =>
          match ev with
          | Ev.key (KeyCode.char c) =>
            by_cases hc : c = 'q'
            · exact ⟨[], by simp [hc, LoopResult.state]⟩
            · simpa only [hc, if_false] using step _ rfl
          | Ev.key KeyCode.other => exact step _ rfl
          | Ev.other => exact step _ rfl

/-- C10: `App::new` starts with an empty frame, `run_app` receives it with
no regeneration performed before the loop, and therefore the first frame
every run hands to `terminal.draw` is the empty data sequence. -/
theorem C10_first_draw_is_empty_frame {E : Type} (env : LoopEnv E) (fuel : Nat)
    (h : 0 < fuel) :
    App.new.data = [] ∧
    ((runApp env fuel 0 ⟨App.new, 0, []⟩).state.drawn).head? = some [] := by
  refine ⟨rfl, ?_⟩
  obtain ⟨t, ht⟩ := runApp_drawn_head env fuel 0 ⟨App.new, 0, []⟩ h
  rw [ht]
  rfl

/-- C10 witness: a one-iteration run over an arbitrary concrete environment
draws the empty frame first. -/
theorem C10_first_draw_is_empty_frame_witness :
    App.new.data = [] ∧
    ((runApp (⟨fun _ => .ok (), fun _ => .ok false, fun _ => .ok Ev.other,
        fun _ => true, fun _ _ => 0⟩ : LoopEnv Nat) 1 0
      ⟨App.new, 0, []⟩).state.drawn).head? = some [] :=
  C10_first_draw_is_empty_frame
    (⟨fun _ => .ok (), fun _ => .ok false, fun _ => .ok Ev.other,
        fun _ => true, fun _ _ => 0⟩ : LoopEnv Nat) 1 (by decide)

end CentralLimit
